import Mathlib

set_option maxHeartbeats 1000000

/- Shallow embedding of `src/mappings.py` from the `pjm` repository: the
mapping-extraction engine (`MappingsType`, `Mappings.__init__`,
`Mappings._detect_selectors`, `Mappings.fetch`, `Mappings._process_member_table`,
`Mappings.get`).

HTML documents are modelled at the granularity at which the Python code
consumes them through its XPath queries: a document is a list of tables
(in document order) plus the following-sibling tables of the
`Field summary` / `Method summary` headings; a table is a list of rows of
cells; each cell carries its optional `class` attribute, its text content,
and the rows of a nested table (member-summary rows nest a table inside
their second cell, which is the scope the member walk scans).  Python
dictionaries are modelled as insertion-ordered association lists with
update-in-place assignment. -/

/-- Characters of `p` are a prefix of `cs` (model of Python `str.startswith`). -/
def prefChars : List Char → List Char → Bool
  | [], _ => true
  | _ :: _, [] => false
  | p :: ps, c :: cs => p == c && prefChars ps cs

/-- `pat` occurs as a contiguous run inside `cs` (model of Python `in` on strings). -/
def subChars (pat : List Char) : List Char → Bool
  | [] => prefChars pat []
  | c :: cs => prefChars pat (c :: cs) || subChars pat cs

/-- Model of Python `pat in s` for strings. -/
def containsSub (s pat : String) : Bool := subChars pat.data s.data

/-- Model of `class_name_text.startswith(('net.minecraft.', 'com.mojang.'))`. -/
def startsRoot (s : String) : Bool :=
  prefChars "net.minecraft.".data s.data || prefChars "com.mojang.".data s.data

/-- Strip leading and trailing whitespace from a character list. -/
def trimChars (cs : List Char) : List Char :=
  ((cs.dropWhile Char.isWhitespace).reverse.dropWhile Char.isWhitespace).reverse

/-- Model of Python `str.strip()`. -/
def pyStrip (s : String) : String := String.mk (trimChars s.data)

/-- Model of Python `str.split(sep)` for a one-character separator. -/
def splitOnChar (sep : Char) : List Char → List (List Char)
  | [] => [[]]
  | c :: rest =>
    match splitOnChar sep rest with
    | g :: gs => if c == sep then [] :: g :: gs else (c :: g) :: gs
    | [] => [[]]

/-- Model of `name_text.split('(')[0]` applied only when `'(' in name_text`
(lines 253-254 and 273-276 of `mappings.py`). -/
def stripParen (s : String) : String :=
  if s.data.contains '(' then
    String.mk ((splitOnChar '(' s.data).headD [])
  else s

/-- Model of `re.match(r'^[a-zA-Z]{1,4}$', text)` together with the redundant
`len(text) <= 4` guard: one to four ASCII letters. -/
def isObfShaped (s : String) : Bool :=
  decide (1 ≤ s.data.length) && decide (s.data.length ≤ 4) && s.data.all Char.isAlpha

/-- Tail of the flat-token pattern after its first digit: zero or more further
digits, then an underscore and a single letter, then the end. -/
def flatCont : List Char → Bool
  | ['_', l] => l.isAlpha
  | c :: rest => c.isDigit && flatCont rest
  | [] => false

/-- One or more digits, then `_` and a single letter (the part of the Searge
member pattern after its prefix). -/
def flatDigits : List Char → Bool
  | c :: rest => c.isDigit && flatCont (c :: rest)
  | [] => false

/-- Model of `re.match(r'^(field_|method_|func_)[0-9]+_[a-zA-Z]$', name_text)`
(line 257 of `mappings.py`). -/
def isFlatToken (s : String) : Bool :=
  (prefChars "field_".data s.data && flatDigits (s.data.drop 6)) ||
  (prefChars "method_".data s.data && flatDigits (s.data.drop 7)) ||
  (prefChars "func_".data s.data && flatDigits (s.data.drop 5))

/-- Accumulate the decimal value of a digit run that may contain single
underscores between digits, as Python `int()` accepts. -/
def digitTail (acc : Nat) : List Char → Option Nat
  | [] => some acc
  | '_' :: c :: rest =>
    if c.isDigit then digitTail (acc * 10 + (c.toNat - 48)) rest else none
  | c :: rest =>
    if c.isDigit then digitTail (acc * 10 + (c.toNat - 48)) rest else none

/-- A nonempty digit run with optional single interior underscores. -/
def digitRun : List Char → Option Nat
  | c :: rest => if c.isDigit then digitTail (c.toNat - 48) rest else none
  | [] => none

/-- Model of Python `int(s)` on a decimal string: optional surrounding
whitespace, optional sign, then digits.  `none` models `ValueError`. -/
def pyIntChars (cs : List Char) : Option Int :=
  match trimChars cs with
  | '+' :: rest => (digitRun rest).map Int.ofNat
  | '-' :: rest => (digitRun rest).map (fun n => -(n : Int))
  | rest => (digitRun rest).map Int.ofNat

/-- The parsed minor component of a version string:
`int(version.split('.')[1])`, `none` when that raises `IndexError` or
`ValueError` (lines 31-32 of `mappings.py`). -/
def minorOf (version : String) : Option Int :=
  match splitOnChar '.' version.data with
  | _ :: m :: _ => pyIntChars m
  | _ => none

/-- Model of Python `str.split()` with no argument: split on whitespace runs,
dropping empty pieces. -/
def pyWsSplitAux (acc : List Char) : List Char → List (List Char)
  | [] => if acc.isEmpty then [] else [acc.reverse]
  | c :: rest =>
    if c.isWhitespace then
      if acc.isEmpty then pyWsSplitAux [] rest else acc.reverse :: pyWsSplitAux [] rest
    else pyWsSplitAux (c :: acc) rest

/-- Model of Python `str.split()` with no argument. -/
def pyWsSplit (s : String) : List String := (pyWsSplitAux [] s.data).map String.mk

/-- The four naming schemes (`MappingsType` enum, lines 6-10 of `mappings.py`). -/
inductive MappingsType
  | MOJANG
  | YARN
  | INTERMEDIARY
  | SEARGE
deriving DecidableEq, Repr

/-- A table cell of a nested (inner) table: `class` attribute and text content. -/
structure LeafCell where
  cls : Option String
  text : String
deriving DecidableEq, Repr

/-- A top-level table cell: `class` attribute, text content, and the rows of
the table nested inside it (empty when nothing is nested). -/
structure Cell where
  cls : Option String
  text : String
  subRows : List (List LeafCell) := []
deriving DecidableEq, Repr

/-- A table row: its direct `td` children. -/
abbrev Row := List Cell

/-- A table: `class` attribute and rows (the rows reached by `./tbody/tr`). -/
structure Table where
  cls : Option String
  rows : List Row
deriving DecidableEq, Repr

/-- A parsed document, at the granularity the engine queries it:

* `tables`: every table of the document, in document order
  (the search space of `//table[...]` and `(//td[@class='...'])[1]`);
* `fsTables`: `none` when the document has no `h4` with exact text
  `Field summary`, otherwise the following-sibling tables of the first such
  heading, in order;
* `msTables`: likewise for `Method summary`. -/
structure Doc where
  tables : List Table
  fsTables : Option (List Table)
  msTables : Option (List Table)
deriving DecidableEq, Repr

/-- The `self.detected_selectors` dictionary (lines 46-52 of `mappings.py`).
The `class_name_markers` sub-dictionary is split into its four possible
entries; the constant `name_container_cell_class` entry is omitted because
the code never reads it back. -/
structure Selectors where
  mojang_marker : Option String
  yarn_marker : Option String
  intermediary_marker : Option String
  searge_map_marker : Option String
  obfuscated_class_marker : Option String
  searge_class_marker : Option String
  field_method_table_class : Option String
deriving DecidableEq, Repr

/-- Selector state as `__init__` leaves it: everything unset. -/
def initial_selectors : Selectors :=
  { mojang_marker := none, yarn_marker := none, intermediary_marker := none
    searge_map_marker := none, obfuscated_class_marker := none
    searge_class_marker := none, field_method_table_class := none }

/-- The per-call `found_types_for_class_names` set of `_detect_selectors`,
as four membership flags. -/
structure Found where
  searge : Bool
  yarn : Bool
  intermediary : Bool
  mojang : Bool
deriving DecidableEq, Repr

/-- The empty `found_types_for_class_names` set. -/
def found0 : Found := ⟨false, false, false, false⟩

/-- Python truthiness of an optional string: `None` and `''` are falsy. -/
def truthyOpt : Option String → Bool
  | none => false
  | some s => !(s == "")

/-- `self.detected_selectors['class_name_markers'].get(mt)`. -/
def markerFor (sel : Selectors) : MappingsType → Option String
  | .MOJANG => sel.mojang_marker
  | .YARN => sel.yarn_marker
  | .INTERMEDIARY => sel.intermediary_marker
  | .SEARGE => sel.searge_map_marker

/-- How one row of the class-definition table is classified by the guards of
lines 72-121 of `_detect_selectors`. -/
inductive RowClass
  | skip
  | obf (m : String)
  | yarn (m : String)
  | inter (m : String)
  | branchC (m : String)
deriving DecidableEq, Repr

/-- The classification performed on each row of the class-definition table
(lines 72-113 of `mappings.py`): exactly two cells, a truthy `class` on the
first, `class='F'` on the second; then the trimmed text is tested as an
obfuscated name (1-4 letters), else for the root prefixes, and a
root-prefixed name is refined by the `Client`/`Impl` and `class_` substring
tests.  `branchC` is the unclassified-dotted-name fallthrough of lines
110-121. -/
def classifyRow : Row → RowClass
  | [markerCell, nameCell] =>
    match markerCell.cls with
    | none => .skip
    | some mc =>
      if mc == "" then .skip
      else if !(nameCell.cls == some "F") then .skip
      else
        let txt := pyStrip nameCell.text
        if txt == "" then .skip
        else if isObfShaped txt then .obf mc
        else if startsRoot txt then
          if containsSub txt "Client" || containsSub txt "Impl" then .yarn mc
          else if containsSub txt "class_" then .inter mc
          else .branchC mc
        else .skip
  | _ => .skip

/-- One iteration of the row loop of `_detect_selectors` (lines 72-121):
record the marker of the first row of each classification, with the
`branchC` fallthrough recording Mojang first and then, while
`searge_class_marker` is still `None`, the Searge slots. -/
def detectRow (acc : Selectors × Found) (r : Row) : Selectors × Found :=
  match classifyRow r with
  | .skip => acc
  | .obf m =>
    if acc.2.searge then acc
    else ({acc.1 with obfuscated_class_marker := some m}, {acc.2 with searge := true})
  | .yarn m =>
    if acc.2.yarn then acc
    else ({acc.1 with yarn_marker := some m}, {acc.2 with yarn := true})
  | .inter m =>
    if acc.2.intermediary then acc
    else ({acc.1 with intermediary_marker := some m}, {acc.2 with intermediary := true})
  | .branchC m =>
    if acc.2.mojang then
      if acc.1.searge_class_marker = none then
        ({acc.1 with searge_class_marker := some m, searge_map_marker := some m}, acc.2)
      else acc
    else ({acc.1 with mojang_marker := some m}, {acc.2 with mojang := true})

/-- Convert a nested-table cell to a `Cell` (nested tables do not nest further). -/
def leafAsCell (l : LeafCell) : Cell := ⟨l.cls, l.text, []⟩

/-- All rows reached by `.//tr` on a table, in document order: each top-level
row followed by the rows of the tables nested in its cells. -/
def Table.allRows (t : Table) : List Row :=
  t.rows.flatMap fun r => r :: r.flatMap fun c => c.subRows.map fun g => g.map leafAsCell

/-- A sibling group contains a `td` with a `class` attribute that has a later
sibling with `class='F'` (the predicate of the `definition_tables` XPath,
line 62 of `mappings.py`). -/
def sibGroupHasDefPair : List Cell → Bool
  | [] => false
  | c :: rest => (c.cls.isSome && rest.any fun d => d.cls == some "F") || sibGroupHasDefPair rest

/-- The table matches `//table[.//td[@class and following-sibling::td[@class='F']]]`. -/
def Table.isDefCandidate (t : Table) : Bool := t.allRows.any sibGroupHasDefPair

/-- The per-table pass of `_detect_selectors` (lines 68-121): fold the row
classifier over `.//tr` of the first candidate table, starting from an empty
`found_types_for_class_names` set. -/
def detectPass (t : Table) (sel : Selectors) : Selectors :=
  (t.allRows.foldl detectRow (sel, found0)).1

/-- The `Method summary` half of the member-table detection (lines 133-140):
the class attribute of the first following-sibling table of the heading,
when present and truthy. -/
def fmFoundMs (doc : Doc) : Option String :=
  match doc.msTables with
  | some (t :: _) =>
    match t.cls with
    | some c => if c == "" then none else some c
    | none => none
  | _ => none

/-- The member-table class token detected from the summary headings
(lines 123-140): `Field summary` first, falling back to `Method summary`. -/
def fmFound (doc : Doc) : Option String :=
  match doc.fsTables with
  | some (t :: _) =>
    match t.cls with
    | some c => if c == "" then fmFoundMs doc else some c
    | none => fmFoundMs doc
  | _ => fmFoundMs doc

/-- Record `field_method_table_class` when a summary heading yields one
(lines 123-140); otherwise the slot keeps its previous value. -/
def detectMemberTable (doc : Doc) (sel : Selectors) : Selectors :=
  match fmFound doc with
  | some c => {sel with field_method_table_class := some c}
  | none => sel

/-- `Mappings._detect_selectors` (lines 54-142): find the first candidate
class-definition table; when none exists return immediately (skipping the
member-table detection too), otherwise run the row pass and then the
member-table detection.  The function mutates the selector state it is given,
so it takes and returns a `Selectors`. -/
def detect_selectors (doc : Doc) (sel : Selectors) : Selectors :=
  match doc.tables.find? Table.isDefCandidate with
  | none => sel
  | some t => detectMemberTable doc (detectPass t sel)

/-- Walk one sibling group for
`td[@class='m']/following-sibling::td[@class='F']`: the first `F`-classed
cell strictly after a cell whose class is exactly `m`. -/
def groupFirstAfterAux (m : String) (seen : Bool) : List LeafCell → Option String
  | [] => none
  | c :: rest =>
    if seen && c.cls == some "F" then some c.text
    else groupFirstAfterAux m (seen || c.cls == some m) rest

/-- `.//td[@class='m']/following-sibling::td[@class='F']` within a member
row's second cell, first result (`[0]` of the XPath node set). -/
def containerQueryFirst (c : Cell) (m : String) : Option String :=
  c.subRows.findSome? (groupFirstAfterAux m false)

/-- Walk one sibling group for `td[@class]/following-sibling::td[@class='F']`,
collecting every `F`-classed cell that follows a cell carrying any `class`
attribute. -/
def groupCollectAux (seen : Bool) : List LeafCell → List String
  | [] => []
  | c :: rest =>
    if seen && c.cls == some "F" then c.text :: groupCollectAux (seen || c.cls.isSome) rest
    else groupCollectAux (seen || c.cls.isSome) rest

/-- All results of `.//td[@class]/following-sibling::td[@class='F']` within a
member row's second cell, in document order (line 247 of `mappings.py`). -/
def collectF (c : Cell) : List String :=
  (c.subRows.map (groupCollectAux false)).flatten

/-- Walk one top-level row (cells plus the nested tables inside them, in
document order) for the first `F`-classed cell following an `m`-classed cell. -/
def rowQueryFirstAux (m : String) (seen : Bool) : List Cell → Option String
  | [] => none
  | c :: rest =>
    if seen && c.cls == some "F" then some c.text
    else
      match c.subRows.findSome? (groupFirstAfterAux m false) with
      | some t => some t
      | none => rowQueryFirstAux m (seen || c.cls == some m) rest

/-- First result of `.//td[@class='m']/following-sibling::td[@class='F']` on a
table (lines 176 and 182 of `mappings.py`). -/
def tableQueryFirst (t : Table) (m : String) : Option String :=
  t.rows.findSome? (rowQueryFirstAux m false)

/-- `(//td[@class='m'])[1]` followed by `ancestor::table[1]` (lines 169-173 of
`mappings.py`): scan tables, rows and cells in document order for the first
`td` whose class is exactly `m`; its nearest enclosing table is the top-level
table when the `td` is a direct cell, and the nested table when the `td`
belongs to a cell's nested rows. -/
def locateDefTable (doc : Doc) (m : String) : Option Table :=
  doc.tables.findSome? fun t =>
    t.rows.findSome? fun r =>
      r.findSome? fun c =>
        if c.cls == some m then some t
        else if c.subRows.any (fun g => g.any fun lc => lc.cls == some m) then
          some ⟨none, c.subRows.map fun g => g.map leafAsCell⟩
        else none

/-- A Python dictionary with string keys and values: insertion-ordered
association list. -/
abbrev Dict := List (String × String)

/-- Python `d[k] = v`: update the existing entry in place, else append. -/
def dictInsert : Dict → String → String → Dict
  | [], k, v => [(k, v)]
  | p :: rest, k, v => if p.1 == k then (k, v) :: rest else p :: dictInsert rest k v

/-- The keys of a dictionary, in order. -/
def keysOf (d : Dict) : List String := d.map Prod.fst

/-- Lookup of the first entry with the given key. -/
def lookupD : Dict → String → Option String
  | [], _ => none
  | p :: rest, k => if p.1 = k then some p.2 else lookupD rest k

/-- Fold a sequence of assignments into a dictionary. -/
def applyD (d : Dict) (s : List (String × String)) : Dict :=
  s.foldl (fun d p => dictInsert d p.1 p.2) d

/-- The mutable instance state of a `Mappings` object (lines 38-52). -/
structure MState where
  version : String
  mapping_type_requested : MappingsType
  field_mappings : Dict
  method_mappings : Dict
  mapping_class_name : Option String
  obfuscated_class_name : Option String
  detected_selectors : Selectors
deriving DecidableEq, Repr

/-- The instance state `__init__` produces (lines 38-52). -/
def initState (version : String) (mt : MappingsType) : MState :=
  { version := version, mapping_type_requested := mt
    field_mappings := [], method_mappings := []
    mapping_class_name := none, obfuscated_class_name := none
    detected_selectors := initial_selectors }

/-- `Mappings.__init__` (lines 29-52).  `Except.error` models raising
`InvalidMappingTypeError` (which escapes the `try`, since it is neither an
`IndexError` nor a `ValueError`); `Except.ok (warned, st)` models successful
construction, with `warned = true` when the minor version could not be parsed
and the warning of line 36 was printed instead. -/
def mappings_init (version : String) (mt : MappingsType) :
    Except (String × MappingsType) (Bool × MState) :=
  match minorOf version with
  | some n =>
    if n < 15 ∧ ¬ mt = MappingsType.SEARGE then Except.error (version, mt)
    else Except.ok (false, initState version mt)
  | none => Except.ok (true, initState version mt)

/-- The ways `Mappings.fetch` can raise past the version gate, as the
`ValueError`s of lines 155, 166, 173, 179, 185 and the `XPathEvalError` that
an empty compound-class condition list would produce in lines 203/210. -/
inductive FetchErr
  | obfMarkerNotFound
  | requestedMarkerNotFound (mt : MappingsType)
  | tableNotFound
  | obfNameNotFound
  | mappingNameNotFound
  | invalidSelector
deriving DecidableEq, Repr

/-- The dictionary `Mappings.get` returns (lines 280-286). -/
structure MappingResult where
  class_name : Option String
  obfuscated_class_name : Option String
  fields : Dict
  methods : Dict
deriving DecidableEq, Repr

/-- `Mappings.get` (lines 280-286). -/
def MState.getResult (st : MState) : MappingResult :=
  ⟨st.mapping_class_name, st.obfuscated_class_name, st.field_mappings, st.method_mappings⟩

/-- The class-marker resolution of `fetch` (lines 157-163): for Searge, the
dedicated `searge_class_marker` slot with Python-`or` fallback to the Mojang
marker; for every other scheme a direct lookup in `class_name_markers`. -/
def resolveClassMarker (sel : Selectors) (mt : MappingsType) : Option String :=
  if mt = MappingsType.SEARGE then
    if truthyOpt sel.searge_class_marker then sel.searge_class_marker else sel.mojang_marker
  else markerFor sel mt

/-- The class-name extraction half of `fetch` (lines 150-185): run detection,
check the obfuscated marker, resolve the requested-scheme marker, re-locate
the definition table from the obfuscated marker, and read both class names. -/
def classStage (st : MState) (doc : Doc) : Except FetchErr MState :=
  let sel1 := detect_selectors doc st.detected_selectors
  if !(truthyOpt sel1.obfuscated_class_marker) then Except.error FetchErr.obfMarkerNotFound
  else if !(truthyOpt (resolveClassMarker sel1 st.mapping_type_requested)) then
    Except.error (FetchErr.requestedMarkerNotFound st.mapping_type_requested)
  else
    match locateDefTable doc (sel1.obfuscated_class_marker.getD "") with
    | none => Except.error FetchErr.tableNotFound
    | some tbl =>
      match tableQueryFirst tbl (sel1.obfuscated_class_marker.getD "") with
      | none => Except.error FetchErr.obfNameNotFound
      | some otxt =>
        match tableQueryFirst tbl ((resolveClassMarker sel1 st.mapping_type_requested).getD "") with
        | none => Except.error FetchErr.mappingNameNotFound
        | some mtxt =>
          Except.ok {st with detected_selectors := sel1
                             obfuscated_class_name := some (pyStrip otxt)
                             mapping_class_name := some (pyStrip mtxt)}

/-- One iteration of the Searge candidate loop (lines 251-260): strip and
normalise the candidate text, then keep it as the flat-shaped name, or else
as the obfuscated-shaped name, overwriting any earlier candidate of the same
shape. -/
def seargeStep (p : Option String × Option String) (txt : String) :
    Option String × Option String :=
  let t := stripParen (pyStrip txt)
  if isFlatToken t then (some t, p.2)
  else if isObfShaped t then (p.1, some t)
  else p

/-- What one member-summary row contributes (lines 237-278), as a function of
the row alone: `none` when the row is skipped, `some (key, value)` for the
assignment `mapping_dict[key] = value`. -/
def rowEntry (mt : MappingsType) (rm om : String) (cells : Row) : Option (String × String) :=
  if cells.length < 2 then none
  else
    match cells[1]? with
    | none => none
    | some nameContainer =>
      if mt = MappingsType.SEARGE then
        match (collectF nameContainer).foldl seargeStep (none, none) with
        | (some s, some o) => some (s, o)
        | _ => none
      else
        match containerQueryFirst nameContainer rm, containerQueryFirst nameContainer om with
        | some mtxt, some otxt => some (stripParen (pyStrip mtxt), stripParen (pyStrip otxt))
        | _, _ => none

/-- One iteration of the member-row loop: perform the assignment the row
contributes, if any. -/
def memberRowStep (mt : MappingsType) (rm om : String) (d : Dict) (cells : Row) : Dict :=
  match rowEntry mt rm om cells with
  | some (k, v) => dictInsert d k v
  | none => d

/-- `Mappings._process_member_table` (lines 216-278): resolve the member
markers (for Searge, `searge_class_marker` with Python-`or` fallback to the
obfuscated marker), return the dictionary unchanged when either marker is
falsy, else fold the row loop over `./tbody/tr`. -/
def process_member_table (sel : Selectors) (mt : MappingsType) (t : Table) (d : Dict) : Dict :=
  let om := sel.obfuscated_class_marker
  let rm :=
    if mt = MappingsType.SEARGE then
      if truthyOpt sel.searge_class_marker then sel.searge_class_marker else om
    else markerFor sel mt
  if !(truthyOpt om) then d
  else if !(truthyOpt rm) then d
  else t.rows.foldl (memberRowStep mt (rm.getD "") (om.getD "")) d

/-- The table filter of lines 192-198: the table's class attribute contains
every whitespace-delimited token of the detected member-table class string. -/
def tokenMatch (toks : List String) (cls : Option String) : Bool :=
  toks.all fun tk => (pyWsSplit (cls.getD "")).contains tk

/-- Lines 200-205 of `mappings.py`, as the transformation applied to
`self.field_mappings`: when the `Field summary` heading is present and some
following-sibling table matches all class tokens, process it. -/
def fieldDictFor (doc : Doc) (toks : List String) (sel : Selectors) (mt : MappingsType)
    (d : Dict) : Dict :=
  match doc.fsTables with
  | none => d
  | some fts =>
    match fts.find? (fun t => tokenMatch toks t.cls) with
    | some ft => process_member_table sel mt ft d
    | none => d

/-- Lines 207-212 of `mappings.py`, as the transformation applied to
`self.method_mappings`. -/
def methodDictFor (doc : Doc) (toks : List String) (sel : Selectors) (mt : MappingsType)
    (d : Dict) : Dict :=
  match doc.msTables with
  | none => d
  | some mts =>
    match mts.find? (fun t => tokenMatch toks t.cls) with
    | some mtab => process_member_table sel mt mtab d
    | none => d

/-- The field/method half of `fetch` (lines 187-212): skip everything when
`field_method_table_class` is falsy; otherwise, for each summary heading
present, process the first following-sibling table matching all class tokens
(when no heading or no matching table is present the corresponding dictionary
is left as it was, which the no-op update below models).  An empty token list
makes the generated XPath invalid, which raises as soon as a summary heading
is present (`invalidSelector`). -/
def memberStage (st : MState) (doc : Doc) : Except FetchErr MState :=
  match st.detected_selectors.field_method_table_class with
  | none => Except.ok st
  | some fm =>
    if fm == "" then Except.ok st
    else
      let toks := pyWsSplit fm
      if toks.isEmpty then
        if doc.fsTables.isSome then Except.error FetchErr.invalidSelector
        else if doc.msTables.isSome then Except.error FetchErr.invalidSelector
        else Except.ok st
      else
        let df := fieldDictFor doc toks st.detected_selectors st.mapping_type_requested st.field_mappings
        let st1 := {st with field_mappings := df}
        let dm := methodDictFor doc toks st1.detected_selectors st1.mapping_type_requested st1.method_mappings
        Except.ok {st1 with method_mappings := dm}

/-- `Mappings.fetch` (lines 144-214) after the network fetch and parse have
produced `doc`: class-name extraction, then member extraction, then
`self.get()`.  The returned state is the mutated instance. -/
def fetch (st : MState) (doc : Doc) : Except FetchErr (MState × MappingResult) :=
  match classStage st doc with
  | Except.error e => Except.error e
  | Except.ok st1 =>
    match memberStage st1 doc with
    | Except.error e => Except.error e
    | Except.ok st2 => Except.ok (st2, st2.getResult)

/-- The marker of a row classified as obfuscated, if any. -/
def obfOf (r : Row) : Option String :=
  match classifyRow r with
  | .obf m => some m
  | _ => none

/-- The marker of a row classified as Yarn, if any. -/
def yarnOf (r : Row) : Option String :=
  match classifyRow r with
  | .yarn m => some m
  | _ => none

/-- The marker of a row classified as Intermediary, if any. -/
def interOf (r : Row) : Option String :=
  match classifyRow r with
  | .inter m => some m
  | _ => none

/-- The marker of a row that reaches the unclassified-dotted-name fallthrough
(branch c), if any. -/
def bcOf (r : Row) : Option String :=
  match classifyRow r with
  | .branchC m => some m
  | _ => none

/-- The head of a list of markers, or a default when the list is empty:
the value of a first-match-wins slot after a detection pass. -/
def headOr (d : Option String) : List String → Option String
  | [] => d
  | m :: _ => some m

/-- The last element of a list, or a default when the list is empty:
the value of a last-match-wins scan. -/
def lastOr (d : Option String) : List String → Option String
  | [] => d
  | x :: xs => lastOr (some x) xs

/-- The value of the last entry of `s` carrying key `k`, if any. -/
def assocLast (s : List (String × String)) (k : String) : Option String :=
  match s with
  | [] => none
  | p :: rest =>
    match assocLast rest k with
    | some v => some v
    | none => if p.1 == k then some p.2 else none

/- Concrete documents used to witness the theorems below. -/

/-- A class-definition table carrying a Mojang row (`A`), a second dotted row
(`B`, which detection records as the Searge marker), and an obfuscated row
(`O`). -/
def tblA : Table :=
  ⟨none, [
    [⟨some "A", "", []⟩, ⟨some "F", "net.minecraft.Foo", []⟩],
    [⟨some "B", "", []⟩, ⟨some "F", "net.minecraft.Bar", []⟩],
    [⟨some "O", "", []⟩, ⟨some "F", "ab", []⟩]]⟩

/-- A document containing `tblA` and no member-summary headings. -/
def docA : Doc := ⟨[tblA], none, none⟩

/-- The same page shape as `docA`, but on a deployment whose marker tokens
changed to `C`/`D`/`P`. -/
def tblB : Table :=
  ⟨none, [
    [⟨some "C", "", []⟩, ⟨some "F", "net.minecraft.Foo", []⟩],
    [⟨some "D", "", []⟩, ⟨some "F", "net.minecraft.Bar", []⟩],
    [⟨some "P", "", []⟩, ⟨some "F", "cd", []⟩]]⟩

/-- A document containing `tblB` and no member-summary headings. -/
def docB : Doc := ⟨[tblB], none, none⟩

/-- A class-definition table whose first two unclassified dotted rows carry
the same name text (`net.minecraft.Foo` under markers `mA` and `mB`), with a
distinct dotted name (`net.minecraft.Bar`) only in the third row (`mC`). -/
def tblC : Table :=
  ⟨none, [
    [⟨some "mA", "", []⟩, ⟨some "F", "net.minecraft.Foo", []⟩],
    [⟨some "mB", "", []⟩, ⟨some "F", "net.minecraft.Foo", []⟩],
    [⟨some "mC", "", []⟩, ⟨some "F", "net.minecraft.Bar", []⟩]]⟩

/-- A document containing `tblC` only. -/
def docC : Doc := ⟨[tblC], none, none⟩

/-- A class-definition table carrying only an obfuscated row. -/
def tblD : Table := ⟨none, [[⟨some "O", "", []⟩, ⟨some "F", "ab", []⟩]]⟩

/-- A document containing `tblD` only: detection finds the obfuscated marker
but no scheme marker. -/
def docD : Doc := ⟨[tblD], none, none⟩

/-- A member-row scope whose nested table yields the candidate texts
`field_1234_a` and `bd`. -/
def memScope : Cell :=
  ⟨none, "", [
    [⟨some "X", ""⟩, ⟨some "F", "field_1234_a"⟩],
    [⟨some "Y", ""⟩, ⟨some "F", "bd"⟩]]⟩

/-- A member-summary row whose scope is `memScope`. -/
def memRowFlat : Row := [⟨some "z", "", []⟩, memScope]

/-- A member-row scope carrying a requested-scheme name with a signature
suffix and an obfuscated name. -/
def memScopeParen : Cell :=
  ⟨none, "", [
    [⟨some "A", ""⟩, ⟨some "F", "getBoundingBox(Lnet/minecraft/Foo;)"⟩],
    [⟨some "O", ""⟩, ⟨some "F", "cq"⟩]]⟩

/-- A member-summary row whose scope is `memScopeParen`. -/
def memRowParen : Row := [⟨some "z", "", []⟩, memScopeParen]

/-- A cell with a class attribute and no nested rows (an under-annotated
member scope). -/
def emptyScope : Cell := ⟨some "q", "", []⟩

/-- The instance state after a successful `fetch` of `docA` under the Searge
scheme on a freshly constructed engine. -/
def stA : MState :=
  ⟨"1.16", MappingsType.SEARGE, [], [], some "net.minecraft.Bar", some "ab",
    ⟨some "A", none, none, some "B", some "O", some "B", none⟩⟩

/-- The result of that fetch. -/
def resA : MappingResult := ⟨some "net.minecraft.Bar", some "ab", [], []⟩

/-- The instance state after a successful `fetch` of `docA` under the Mojang
scheme on a freshly constructed engine. -/
def stAm : MState :=
  ⟨"1.16", MappingsType.MOJANG, [], [], some "net.minecraft.Foo", some "ab",
    ⟨some "A", none, none, some "B", some "O", some "B", none⟩⟩

/-- The instance state after a successful `fetch` of `docB` under the Searge
scheme on a freshly constructed engine. -/
def stB : MState :=
  ⟨"1.16", MappingsType.SEARGE, [], [], some "net.minecraft.Bar", some "cd",
    ⟨some "C", none, none, some "D", some "P", some "D", none⟩⟩

/- Helper lemmas. -/

theorem splitOnChar_ne_nil (sep : Char) (cs : List Char) : splitOnChar sep cs ≠ [] := by
  cases cs with
  | nil => simp [splitOnChar]
  | cons c rest =>
    cases h : splitOnChar sep rest with
    | nil => simp [splitOnChar, h]
    | cons g gs =>
      simp only [splitOnChar, h]
      split <;> simp

theorem splitOnChar_headD (sep : Char) (cs : List Char) :
    (splitOnChar sep cs).headD [] = cs.takeWhile (fun c => !(c == sep)) := by
  induction cs with
  | nil => rfl
  | cons c rest ih =>
    cases h : splitOnChar sep rest with
    | nil => exact absurd h (splitOnChar_ne_nil sep rest)
    | cons g gs =>
      have hg : g = rest.takeWhile (fun c => !(c == sep)) := by simpa [h] using ih
      by_cases hc : c = sep
      · simp [splitOnChar, h, hc, List.takeWhile_cons]
      · simp [splitOnChar, h, hc, List.takeWhile_cons, hg]

theorem takeWhile_no_sep (cs : List Char) (h : cs.contains '(' = false) :
    cs.takeWhile (fun c => !(c == '(')) = cs := by
  induction cs with
  | nil => rfl
  | cons c rest ih =>
    simp only [List.contains_cons, Bool.or_eq_false_iff, beq_eq_false_iff_ne, ne_eq] at h
    have hc : ¬ c = '(' := fun hh => h.1 hh.symm
    simp [List.takeWhile_cons, ih h.2, hc]

theorem string_mk_data (s : String) : String.mk s.data = s := rfl

/-- Claim C1: for a version whose second dot-separated component parses as an
integer below 15, construction with any scheme other than Searge raises
`InvalidMappingTypeError` (and no network access is possible, since `fetch`
can only be called on a constructed instance); construction with Searge for
such a version, or with any scheme when the minor is at least 15, succeeds
through the gate without a warning; and a version whose minor component does
not parse yields a successful construction with a warning. -/
theorem C1_version_gate (version : String) (mt : MappingsType) :
    (∀ n : Int, minorOf version = some n →
      ((n < 15 ∧ ¬ mt = MappingsType.SEARGE →
          mappings_init version mt = Except.error (version, mt)) ∧
       (n < 15 ∧ mt = MappingsType.SEARGE →
          mappings_init version mt = Except.ok (false, initState version mt)) ∧
       (15 ≤ n →
          mappings_init version mt = Except.ok (false, initState version mt)))) ∧
    (minorOf version = none →
      mappings_init version mt = Except.ok (true, initState version mt)) := by
  constructor
  · intro n hn
    have hbase : mappings_init version mt =
        if n < 15 ∧ ¬ mt = MappingsType.SEARGE then Except.error (version, mt)
        else Except.ok (false, initState version mt) := by
      rw [mappings_init, hn]
    refine ⟨fun h => ?_, fun h => ?_, fun h => ?_⟩
    · rw [hbase, if_pos h]
    · rw [hbase, if_neg]
      rintro ⟨-, hne⟩
      exact hne h.2
    · rw [hbase, if_neg]
      rintro ⟨hlt, -⟩
      omega
  · intro h
    simp [mappings_init, h]

/-- Witness for C1 at the versions named by the specification. -/
theorem C1_version_gate_witness :
    mappings_init "1.14.4" MappingsType.MOJANG
        = Except.error ("1.14.4", MappingsType.MOJANG) ∧
    mappings_init "1.14.4" MappingsType.SEARGE
        = Except.ok (false, initState "1.14.4" MappingsType.SEARGE) ∧
    mappings_init "1.20.1" MappingsType.SEARGE
        = Except.ok (false, initState "1.20.1" MappingsType.SEARGE) ∧
    mappings_init "snapshot" MappingsType.MOJANG
        = Except.ok (true, initState "snapshot" MappingsType.MOJANG) := by
  refine ⟨?_, ?_, ?_, ?_⟩
  · exact ((C1_version_gate "1.14.4" MappingsType.MOJANG).1 14 (by decide)).1
      ⟨by decide, by decide⟩
  · exact (((C1_version_gate "1.14.4" MappingsType.SEARGE).1 14 (by decide)).2.1)
      ⟨by decide, rfl⟩
  · exact (((C1_version_gate "1.20.1" MappingsType.SEARGE).1 20 (by decide)).2.2)
      (by decide)
  · exact (C1_version_gate "snapshot" MappingsType.MOJANG).2 (by decide)

/-- Claim C4: resolving the class-name marker in `fetch` — for the Searge
scheme the secondary `searge_class_marker` slot is used when set, with
fallback to the Mojang marker; every other scheme is looked up directly in
the per-scheme map; and when the resolved marker is still unset `fetch`
fails with a marker-not-found error naming the requested scheme. -/
theorem C4_marker_resolution (st : MState) (doc : Doc) :
    (st.mapping_type_requested = MappingsType.SEARGE →
      resolveClassMarker (detect_selectors doc st.detected_selectors) st.mapping_type_requested =
        (if truthyOpt (detect_selectors doc st.detected_selectors).searge_class_marker
         then (detect_selectors doc st.detected_selectors).searge_class_marker
         else (detect_selectors doc st.detected_selectors).mojang_marker)) ∧
    (¬ st.mapping_type_requested = MappingsType.SEARGE →
      resolveClassMarker (detect_selectors doc st.detected_selectors) st.mapping_type_requested =
        markerFor (detect_selectors doc st.detected_selectors) st.mapping_type_requested) ∧
    (truthyOpt (detect_selectors doc st.detected_selectors).obfuscated_class_marker = true →
      truthyOpt (resolveClassMarker (detect_selectors doc st.detected_selectors)
          st.mapping_type_requested) = false →
      fetch st doc = Except.error (FetchErr.requestedMarkerNotFound st.mapping_type_requested)) := by
  refine ⟨fun h => ?_, fun h => ?_, fun h1 h2 => ?_⟩
  · simp [resolveClassMarker, h]
  · simp [resolveClassMarker, h]
  · simp [fetch, classStage, h1, h2]

/-- Witness for C4: on `docD` detection finds only the obfuscated marker, so
a Mojang request fails with `requestedMarkerNotFound`. -/
theorem C4_marker_resolution_witness :
    fetch (initState "1.16" MappingsType.MOJANG) docD =
      Except.error (FetchErr.requestedMarkerNotFound MappingsType.MOJANG) ∧
    resolveClassMarker (detect_selectors docD initial_selectors) MappingsType.MOJANG =
      markerFor (detect_selectors docD initial_selectors) MappingsType.MOJANG := by
  have h := C4_marker_resolution (initState "1.16" MappingsType.MOJANG) docD
  exact ⟨h.2.2 (by decide) (by decide), h.2.1 (by decide)⟩

theorem classStage_ok_inv (st : MState) (doc : Doc) (st1 : MState)
    (h : classStage st doc = Except.ok st1) :
    st1.version = st.version ∧
    st1.mapping_type_requested = st.mapping_type_requested ∧
    st1.field_mappings = st.field_mappings ∧
    st1.method_mappings = st.method_mappings ∧
    st1.detected_selectors = detect_selectors doc st.detected_selectors ∧
    st1.mapping_class_name.isSome = true ∧
    st1.obfuscated_class_name.isSome = true := by
  simp only [classStage] at h
  repeat' split at h
  all_goals try exact Except.noConfusion h
  injection h with h'
  subst h'
  simp

/-- Claim C5: when detection leaves the member-table class unset, `fetch`
skips field/method extraction entirely and (the class-name stage having
succeeded) returns successfully with both class names present and the field
and method mappings empty — a degraded success, not an error. -/
theorem C5_degraded_success (st : MState) (doc : Doc) (st1 : MState)
    (hstage : classStage st doc = Except.ok st1)
    (hfm : (detect_selectors doc st.detected_selectors).field_method_table_class = none)
    (hf : st.field_mappings = []) (hm : st.method_mappings = []) :
    fetch st doc = Except.ok (st1, st1.getResult) ∧
    st1.getResult.fields = [] ∧
    st1.getResult.methods = [] ∧
    st1.getResult.class_name.isSome = true ∧
    st1.getResult.obfuscated_class_name.isSome = true := by
  obtain ⟨-, -, hfields, hmeths, hsel, hcn, hon⟩ := classStage_ok_inv st doc st1 hstage
  have hfm1 : st1.detected_selectors.field_method_table_class = none := by
    rw [hsel]; exact hfm
  have hms : memberStage st1 doc = Except.ok st1 := by
    simp [memberStage, hfm1]
  refine ⟨?_, ?_, ?_, ?_, ?_⟩
  · simp [fetch, hstage, hms]
  · simp [MState.getResult, hfields, hf]
  · simp [MState.getResult, hmeths, hm]
  · simpa [MState.getResult] using hcn
  · simpa [MState.getResult] using hon

/-- Witness for C5: `docA` has a class-definition table but no summary
headings; fetching it succeeds with both class names and empty mappings. -/
theorem C5_degraded_success_witness :
    fetch (initState "1.16" MappingsType.MOJANG) docA = Except.ok (stAm, stAm.getResult) ∧
    stAm.getResult.fields = [] ∧
    stAm.getResult.methods = [] ∧
    stAm.getResult.class_name = some "net.minecraft.Foo" ∧
    stAm.getResult.obfuscated_class_name = some "ab" := by
  have h := C5_degraded_success (initState "1.16" MappingsType.MOJANG) docA stAm
    rfl rfl rfl rfl
  exact ⟨h.1, h.2.1, h.2.2.1, rfl, rfl⟩

theorem length_ge_two_of_snd (cells : Row) (nc : Cell) (hnc : cells[1]? = some nc) :
    ¬ cells.length < 2 := by
  intro hl
  rw [List.getElem?_eq_none (by omega)] at hnc
  exact Option.noConfusion hnc

/-- Claim C8: a member-summary row with fewer than two cells, or (under a
non-Searge scheme) one whose scope lacks the name cell after the requested
marker or after the obfuscated marker, contributes nothing to the mapping;
and the member stage of `fetch` can only fail with the invalid-selector
corner case, never because of a deficient row. -/
theorem C8_row_and_fetch_tolerance (mt : MappingsType) (rm om : String) (d : Dict)
    (cells : Row) :
    (cells.length < 2 → memberRowStep mt rm om d cells = d) ∧
    (∀ nc : Cell, ¬ mt = MappingsType.SEARGE → cells[1]? = some nc →
      (containerQueryFirst nc rm = none ∨ containerQueryFirst nc om = none) →
      memberRowStep mt rm om d cells = d) ∧
    (∀ (st : MState) (doc : Doc) (e : FetchErr),
      memberStage st doc = Except.error e → e = FetchErr.invalidSelector) := by
  refine ⟨fun h => ?_, fun nc hmt hnc hq => ?_, fun st doc e h => ?_⟩
  · simp [memberRowStep, rowEntry, h]
  · have hlen := length_ge_two_of_snd cells nc hnc
    cases h1 : containerQueryFirst nc rm <;> cases h2 : containerQueryFirst nc om <;>
      simp_all [memberRowStep, rowEntry]
  · simp only [memberStage] at h
    repeat' split at h
    all_goals first
      | exact Except.noConfusion h
      | (injection h with h'; exact h'.symm)

/-- Witness for C8 at a zero-cell row and at a two-cell row with an empty
scope. -/
theorem C8_row_and_fetch_tolerance_witness :
    memberRowStep MappingsType.MOJANG "m" "o" [("k", "v")] [] = [("k", "v")] ∧
    memberRowStep MappingsType.MOJANG "m" "o" [("k", "v")] [emptyScope, emptyScope]
      = [("k", "v")] := by
  refine ⟨(C8_row_and_fetch_tolerance MappingsType.MOJANG "m" "o" [("k", "v")] []).1
    (by decide), ?_⟩
  exact (C8_row_and_fetch_tolerance MappingsType.MOJANG "m" "o" [("k", "v")]
    [emptyScope, emptyScope]).2.1 emptyScope (by decide) rfl (Or.inl rfl)

theorem searge_scan (l : List String) (p : Option String × Option String) :
    l.foldl seargeStep p =
      (lastOr p.1 ((l.map fun t => stripParen (pyStrip t)).filter isFlatToken),
       lastOr p.2 ((l.map fun t => stripParen (pyStrip t)).filter
         (fun t => !isFlatToken t && isObfShaped t))) := by
  induction l generalizing p with
  | nil => simp [lastOr]
  | cons x xs ih =>
    simp only [List.foldl_cons, List.map_cons, List.filter_cons]
    by_cases hf : isFlatToken (stripParen (pyStrip x))
    · have hstep : seargeStep p x = (some (stripParen (pyStrip x)), p.2) := by
        simp [seargeStep, hf]
      rw [hstep, ih]
      simp [hf, lastOr]
    · by_cases ho : isObfShaped (stripParen (pyStrip x))
      · have hstep : seargeStep p x = (p.1, some (stripParen (pyStrip x))) := by
          simp [seargeStep, hf, ho]
        rw [hstep, ih]
        simp [hf, ho, lastOr]
      · have hstep : seargeStep p x = p := by
          simp [seargeStep, hf, ho]
        rw [hstep, ih]
        simp [hf, ho]

theorem lastOr_mem (xs : List String) (d : Option String) (x : String)
    (h : lastOr d xs = some x) : x ∈ xs ∨ d = some x := by
  induction xs generalizing d with
  | nil => exact Or.inr h
  | cons y ys ih =>
    rcases ih (some y) h with hmem | hy
    · exact Or.inl (List.mem_cons_of_mem _ hmem)
    · injection hy with hy'
      subst hy'
      exact Or.inl (List.mem_cons_self _ _)

/-- Claim C7: only the text preceding the first parenthesis of a name is
significant — `stripParen` computes exactly the prefix before the first `(`
(and leaves paren-free names unchanged), the standard member branch records
`stripParen`-normalised key and value, and any pair the Searge branch records
consists of `stripParen`-normalised candidate texts of the row scope. -/
theorem C7_paren_stripping :
    (∀ s : String, stripParen s = String.mk (s.data.takeWhile (fun c => !(c == '(')))) ∧
    (∀ (mt : MappingsType) (rm om : String) (d : Dict) (cells : Row) (nc : Cell)
        (mtxt otxt : String), ¬ mt = MappingsType.SEARGE → cells[1]? = some nc →
      containerQueryFirst nc rm = some mtxt → containerQueryFirst nc om = some otxt →
      memberRowStep mt rm om d cells =
        dictInsert d (stripParen (pyStrip mtxt)) (stripParen (pyStrip otxt))) ∧
    (∀ (rm om : String) (cells : Row) (nc : Cell) (s o : String), cells[1]? = some nc →
      rowEntry MappingsType.SEARGE rm om cells = some (s, o) →
      s ∈ (collectF nc).map (fun t => stripParen (pyStrip t)) ∧
      o ∈ (collectF nc).map (fun t => stripParen (pyStrip t))) := by
  refine ⟨fun s => ?_, fun mt rm om d cells nc mtxt otxt hmt hnc h1 h2 => ?_,
    fun rm om cells nc s o hnc h => ?_⟩
  · rw [stripParen]
    by_cases hc : s.data.contains '(' = true
    · rw [if_pos hc, splitOnChar_headD]
    · rw [if_neg hc]
      have hc' : s.data.contains '(' = false := by
        cases hq : s.data.contains '(' with
        | false => rfl
        | true => exact absurd hq hc
      rw [takeWhile_no_sep s.data hc', string_mk_data]
  · have hlen := length_ge_two_of_snd cells nc hnc
    simp [memberRowStep, rowEntry, hlen, hnc, hmt, h1, h2]
  · have hlen := length_ge_two_of_snd cells nc hnc
    rw [rowEntry, if_neg hlen, hnc] at h
    simp only [if_pos rfl] at h
    rw [searge_scan] at h
    cases hl1 : lastOr none (((collectF nc).map fun t => stripParen (pyStrip t)).filter
        isFlatToken) with
    | none => rw [hl1] at h; simp at h
    | some v1 =>
      cases hl2 : lastOr none (((collectF nc).map fun t => stripParen (pyStrip t)).filter
          (fun t => !isFlatToken t && isObfShaped t)) with
      | none => rw [hl1, hl2] at h; simp at h
      | some v2 =>
        rw [hl1, hl2] at h
        simp only [] at h
        injection h with h'
        have hv1 : v1 = s := congrArg Prod.fst h'
        have hv2 : v2 = o := congrArg Prod.snd h'
        subst hv1
        subst hv2
        constructor
        · rcases lastOr_mem _ _ _ hl1 with hmem | hno
          · exact List.mem_of_mem_filter hmem
          · exact Option.noConfusion hno
        · rcases lastOr_mem _ _ _ hl2 with hmem | hno
          · exact List.mem_of_mem_filter hmem
          · exact Option.noConfusion hno

/-- Witness for C7 at the scenario name of the specification. -/
theorem C7_paren_stripping_witness :
    stripParen "getBoundingBox(Lnet/minecraft/Foo;)" = "getBoundingBox" ∧
    stripParen "minX" = "minX" ∧
    memberRowStep MappingsType.MOJANG "A" "O" [] memRowParen = [("getBoundingBox", "cq")] := by
  refine ⟨(C7_paren_stripping.1 _).trans rfl, (C7_paren_stripping.1 _).trans rfl, ?_⟩
  exact (C7_paren_stripping.2.1 MappingsType.MOJANG "A" "O" [] memRowParen memScopeParen
    "getBoundingBox(Lnet/minecraft/Foo;)" "cq" (by decide) rfl rfl rfl).trans rfl

/-- Claim C6: under the Searge scheme a member row's scope is scanned over
all class-marked/`F` cell pairs, ignoring the resolved markers entirely; the
candidates are classified purely by shape (flat token versus 1-4 letters,
last match of each shape winning), and an entry is produced exactly when both
a flat-shaped and an obfuscated-shaped candidate were found in the row. -/
theorem C6_searge_member_row (rm om rm2 om2 : String) (cells : Row) (nc : Cell)
    (hnc : cells[1]? = some nc) :
    (rowEntry MappingsType.SEARGE rm om cells =
      (match (lastOr none (((collectF nc).map fun t => stripParen (pyStrip t)).filter
                isFlatToken),
              lastOr none (((collectF nc).map fun t => stripParen (pyStrip t)).filter
                (fun t => !isFlatToken t && isObfShaped t))) with
       | (some s, some o) => some (s, o)
       | _ => none)) ∧
    rowEntry MappingsType.SEARGE rm om cells = rowEntry MappingsType.SEARGE rm2 om2 cells := by
  have hlen := length_ge_two_of_snd cells nc hnc
  constructor
  · rw [rowEntry, if_neg hlen, hnc]
    simp only [if_pos rfl]
    rw [searge_scan]
    simp
  · simp [rowEntry]

/-- Witness for C6: a row yielding `field_1234_a` and `bd` records the entry
`field_1234_a -> bd`, whatever markers were resolved. -/
theorem C6_searge_member_row_witness :
    rowEntry MappingsType.SEARGE "r" "o" memRowFlat = some ("field_1234_a", "bd") ∧
    rowEntry MappingsType.SEARGE "r" "o" memRowFlat =
      rowEntry MappingsType.SEARGE "x" "y" memRowFlat ∧
    memberRowStep MappingsType.SEARGE "r" "o" [] memRowFlat = [("field_1234_a", "bd")] := by
  have h := C6_searge_member_row "r" "o" "x" "y" memRowFlat memScope rfl
  exact ⟨h.1.trans rfl, h.2, rfl⟩

theorem detect_fold_obf (rows : List Row) (sel : Selectors) (fnd : Found) :
    (rows.foldl detectRow (sel, fnd)).1.obfuscated_class_marker =
      (if fnd.searge then sel.obfuscated_class_marker
       else headOr sel.obfuscated_class_marker (rows.filterMap obfOf)) := by
  induction rows generalizing sel fnd with
  | nil => cases hb : fnd.searge <;> simp [headOr, hb]
  | cons r rows ih =>
    rw [List.foldl_cons, List.filterMap_cons]
    cases hc : classifyRow r with
    | skip =>
      have hr : obfOf r = none := by simp [obfOf, hc]
      simp only [detectRow, hc, hr]
      exact ih sel fnd
    | obf m =>
      have hr : obfOf r = some m := by simp [obfOf, hc]
      simp only [detectRow, hc, hr]
      cases hb : fnd.searge <;> simp [hb, ih, headOr]
    | yarn m =>
      have hr : obfOf r = none := by simp [obfOf, hc]
      simp only [detectRow, hc, hr]
      cases hb : fnd.yarn <;> simp [hb, ih]
    | inter m =>
      have hr : obfOf r = none := by simp [obfOf, hc]
      simp only [detectRow, hc, hr]
      cases hb : fnd.intermediary <;> simp [hb, ih]
    | branchC m =>
      have hr : obfOf r = none := by simp [obfOf, hc]
      simp only [detectRow, hc, hr]
      cases hb : fnd.mojang
      · simp [hb, ih]
      · by_cases hs : sel.searge_class_marker = none <;> simp [hb, hs, ih]

theorem detect_fold_yarn (rows : List Row) (sel : Selectors) (fnd : Found) :
    (rows.foldl detectRow (sel, fnd)).1.yarn_marker =
      (if fnd.yarn then sel.yarn_marker
       else headOr sel.yarn_marker (rows.filterMap yarnOf)) := by
  induction rows generalizing sel fnd with
  | nil => cases hb : fnd.yarn <;> simp [headOr, hb]
  | cons r rows ih =>
    rw [List.foldl_cons, List.filterMap_cons]
    cases hc : classifyRow r with
    | skip =>
      have hr : yarnOf r = none := by simp [yarnOf, hc]
      simp only [detectRow, hc, hr]
      exact ih sel fnd
    | obf m =>
      have hr : yarnOf r = none := by simp [yarnOf, hc]
      simp only [detectRow, hc, hr]
      cases hb : fnd.searge <;> simp [hb, ih]
    | yarn m =>
      have hr : yarnOf r = some m := by simp [yarnOf, hc]
      simp only [detectRow, hc, hr]
      cases hb : fnd.yarn <;> simp [hb, ih, headOr]
    | inter m =>
      have hr : yarnOf r = none := by simp [yarnOf, hc]
      simp only [detectRow, hc, hr]
      cases hb : fnd.intermediary <;> simp [hb, ih]
    | branchC m =>
      have hr : yarnOf r = none := by simp [yarnOf, hc]
      simp only [detectRow, hc, hr]
      cases hb : fnd.mojang
      · simp [hb, ih]
      · by_cases hs : sel.searge_class_marker = none <;> simp [hb, hs, ih]

theorem detect_fold_inter (rows : List Row) (sel : Selectors) (fnd : Found) :
    (rows.foldl detectRow (sel, fnd)).1.intermediary_marker =
      (if fnd.intermediary then sel.intermediary_marker
       else headOr sel.intermediary_marker (rows.filterMap interOf)) := by
  induction rows generalizing sel fnd with
  | nil => cases hb : fnd.intermediary <;> simp [headOr, hb]
  | cons r rows ih =>
    rw [List.foldl_cons, List.filterMap_cons]
    cases hc : classifyRow r with
    | skip =>
      have hr : interOf r = none := by simp [interOf, hc]
      simp only [detectRow, hc, hr]
      exact ih sel fnd
    | obf m =>
      have hr : interOf r = none := by simp [interOf, hc]
      simp only [detectRow, hc, hr]
      cases hb : fnd.searge <;> simp [hb, ih]
    | yarn m =>
      have hr : interOf r = none := by simp [interOf, hc]
      simp only [detectRow, hc, hr]
      cases hb : fnd.yarn <;> simp [hb, ih]
    | inter m =>
      have hr : interOf r = some m := by simp [interOf, hc]
      simp only [detectRow, hc, hr]
      cases hb : fnd.intermediary <;> simp [hb, ih, headOr]
    | branchC m =>
      have hr : interOf r = none := by simp [interOf, hc]
      simp only [detectRow, hc, hr]
      cases hb : fnd.mojang
      · simp [hb, ih]
      · by_cases hs : sel.searge_class_marker = none <;> simp [hb, hs, ih]

theorem detect_fold_bc (rows : List Row) (sel : Selectors) (fnd : Found) :
    ((rows.foldl detectRow (sel, fnd)).1.mojang_marker =
      (if fnd.mojang then sel.mojang_marker
       else headOr sel.mojang_marker (rows.filterMap bcOf))) ∧
    ((rows.foldl detectRow (sel, fnd)).1.searge_class_marker =
      (if sel.searge_class_marker.isSome then sel.searge_class_marker
       else if fnd.mojang then (rows.filterMap bcOf)[0]? else (rows.filterMap bcOf)[1]?)) ∧
    ((rows.foldl detectRow (sel, fnd)).1.searge_map_marker =
      (if sel.searge_class_marker.isSome then sel.searge_map_marker
       else
         match (if fnd.mojang then (rows.filterMap bcOf)[0]? else (rows.filterMap bcOf)[1]?) with
         | some m => some m
         | none => sel.searge_map_marker)) := by
  induction rows generalizing sel fnd with
  | nil =>
    refine ⟨?_, ?_, ?_⟩ <;>
      cases hb : fnd.mojang <;> cases hs : sel.searge_class_marker <;> simp [headOr, hb, hs]
  | cons r rows ih =>
    rw [List.foldl_cons]
    simp only [List.filterMap_cons]
    cases hc : classifyRow r with
    | skip =>
      have hr : bcOf r = none := by simp [bcOf, hc]
      simp only [detectRow, hc, hr]
      exact ih sel fnd
    | obf m =>
      have hr : bcOf r = none := by simp [bcOf, hc]
      simp only [detectRow, hc, hr]
      cases hb : fnd.searge <;> simp [hb, ih]
    | yarn m =>
      have hr : bcOf r = none := by simp [bcOf, hc]
      simp only [detectRow, hc, hr]
      cases hb : fnd.yarn <;> simp [hb, ih]
    | inter m =>
      have hr : bcOf r = none := by simp [bcOf, hc]
      simp only [detectRow, hc, hr]
      cases hb : fnd.intermediary <;> simp [hb, ih]
    | branchC m =>
      have hr : bcOf r = some m := by simp [bcOf, hc]
      simp only [detectRow, hc, hr]
      cases hb : fnd.mojang
      · simp [hb, ih, headOr]
      · by_cases hs : sel.searge_class_marker = none
        · simp [hb, hs, ih]
        · have hs' : sel.searge_class_marker.isSome = true := by
            cases hq : sel.searge_class_marker with
            | none => exact absurd hq hs
            | some x => rfl
          simp [hb, hs, hs', ih]

theorem detectRow_fm (acc : Selectors × Found) (r : Row) :
    (detectRow acc r).1.field_method_table_class = acc.1.field_method_table_class := by
  cases hc : classifyRow r
  all_goals simp only [detectRow, hc]
  all_goals repeat' split
  all_goals simp

theorem detect_fold_fm (rows : List Row) (acc : Selectors × Found) :
    (rows.foldl detectRow acc).1.field_method_table_class =
      acc.1.field_method_table_class := by
  induction rows generalizing acc with
  | nil => rfl
  | cons r rows ih => rw [List.foldl_cons, ih, detectRow_fm]

theorem detectMemberTable_markers (doc : Doc) (s : Selectors) :
    (detectMemberTable doc s).mojang_marker = s.mojang_marker ∧
    (detectMemberTable doc s).yarn_marker = s.yarn_marker ∧
    (detectMemberTable doc s).intermediary_marker = s.intermediary_marker ∧
    (detectMemberTable doc s).searge_map_marker = s.searge_map_marker ∧
    (detectMemberTable doc s).obfuscated_class_marker = s.obfuscated_class_marker ∧
    (detectMemberTable doc s).searge_class_marker = s.searge_class_marker ∧
    (detectMemberTable doc s).field_method_table_class =
      (match fmFound doc with
       | some c => some c
       | none => s.field_method_table_class) := by
  cases h : fmFound doc <;> simp [detectMemberTable, h]

theorem detectPass_char (t : Table) (sel : Selectors) :
    (detectPass t sel).obfuscated_class_marker =
      headOr sel.obfuscated_class_marker (t.allRows.filterMap obfOf) ∧
    (detectPass t sel).yarn_marker =
      headOr sel.yarn_marker (t.allRows.filterMap yarnOf) ∧
    (detectPass t sel).intermediary_marker =
      headOr sel.intermediary_marker (t.allRows.filterMap interOf) ∧
    (detectPass t sel).mojang_marker =
      headOr sel.mojang_marker (t.allRows.filterMap bcOf) ∧
    (detectPass t sel).searge_class_marker =
      (if sel.searge_class_marker.isSome then sel.searge_class_marker
       else (t.allRows.filterMap bcOf)[1]?) ∧
    (detectPass t sel).searge_map_marker =
      (if sel.searge_class_marker.isSome then sel.searge_map_marker
       else
         match (t.allRows.filterMap bcOf)[1]? with
         | some m => some m
         | none => sel.searge_map_marker) := by
  obtain ⟨h1, h2, h3⟩ := detect_fold_bc t.allRows sel found0
  refine ⟨?_, ?_, ?_, ?_, ?_, ?_⟩
  · rw [detectPass]
    simpa [found0] using detect_fold_obf t.allRows sel found0
  · rw [detectPass]
    simpa [found0] using detect_fold_yarn t.allRows sel found0
  · rw [detectPass]
    simpa [found0] using detect_fold_inter t.allRows sel found0
  · rw [detectPass]
    simpa [found0] using h1
  · rw [detectPass]
    simpa [found0] using h2
  · rw [detectPass]
    simpa [found0] using h3

/-- Claim C3: within a single detection pass (which always starts from an
empty `found_types_for_class_names` set), every marker slot is
first-match-wins — the final value of each slot is determined by the first
row of its classification, with later rows of the same classification never
overwriting it, so at most one marker is recorded per scheme and for the
obfuscated slot; the Searge secondary slot additionally keeps any value it
already had. -/
theorem C3_first_match_wins (t : Table) (sel : Selectors) :
    (detectPass t sel).obfuscated_class_marker =
      headOr sel.obfuscated_class_marker (t.allRows.filterMap obfOf) ∧
    (detectPass t sel).yarn_marker =
      headOr sel.yarn_marker (t.allRows.filterMap yarnOf) ∧
    (detectPass t sel).intermediary_marker =
      headOr sel.intermediary_marker (t.allRows.filterMap interOf) ∧
    (detectPass t sel).mojang_marker =
      headOr sel.mojang_marker (t.allRows.filterMap bcOf) ∧
    (detectPass t sel).searge_class_marker =
      (if sel.searge_class_marker.isSome then sel.searge_class_marker
       else (t.allRows.filterMap bcOf)[1]?) ∧
    (detectPass t sel).searge_map_marker =
      (if sel.searge_class_marker.isSome then sel.searge_map_marker
       else
         match (t.allRows.filterMap bcOf)[1]? with
         | some m => some m
         | none => sel.searge_map_marker) :=
  detectPass_char t sel

theorem headOr_none (l : List String) : headOr none l = l[0]? := by
  cases l <;> simp [headOr]

/-- Counterexample to claim C2 as stated: in `docC` the second *distinct*
unclassified dotted name (`net.minecraft.Bar`) appears in the third row,
under marker `mC`, yet the flat/dual secondary slot records `mB` — the marker
of the second *row* of the branch, whose name text is identical to the
first row's. -/
theorem C2_counterexample :
    (detect_selectors docC initial_selectors).mojang_marker = some "mA" ∧
    (detect_selectors docC initial_selectors).searge_class_marker = some "mB" ∧
    ¬ (detect_selectors docC initial_selectors).searge_class_marker = some "mC" := by
  exact ⟨rfl, rfl, by decide⟩

/-- Claim C2 as amended: over the first candidate class-definition table,
starting from fresh selector state, the first row reaching the
unclassified-dotted-name branch records its marker as the Mojang marker, and
the second such row — whether or not its name text differs from the first —
records its marker in the flat/dual secondary slot (and in the Searge entry
of the per-scheme map); later such rows are ignored. -/
theorem C2_amended_second_row (doc : Doc) (t : Table)
    (h : doc.tables.find? Table.isDefCandidate = some t) :
    (detect_selectors doc initial_selectors).mojang_marker =
      (t.allRows.filterMap bcOf)[0]? ∧
    (detect_selectors doc initial_selectors).searge_class_marker =
      (t.allRows.filterMap bcOf)[1]? ∧
    (detect_selectors doc initial_selectors).searge_map_marker =
      (t.allRows.filterMap bcOf)[1]? := by
  simp only [detect_selectors, h]
  obtain ⟨hm, -, -, hmap, -, hs, -⟩ :=
    detectMemberTable_markers doc (detectPass t initial_selectors)
  obtain ⟨g1, g2, g3⟩ := detect_fold_bc t.allRows initial_selectors found0
  refine ⟨?_, ?_, ?_⟩
  · rw [hm, detectPass, g1]
    simp [found0, initial_selectors, headOr_none]
  · rw [hs, detectPass, g2]
    simp [found0, initial_selectors]
  · rw [hmap, detectPass, g3]
    simp only [found0, initial_selectors]
    cases (t.allRows.filterMap bcOf)[1]? <;> simp

/-- Witness for the amended C2 at `docC`. -/
theorem C2_amended_second_row_witness :
    docC.tables.find? Table.isDefCandidate = some tblC ∧
    (detect_selectors docC initial_selectors).searge_map_marker = some "mB" ∧
    (tblC.allRows.filterMap bcOf)[0]? = some "mA" ∧
    (tblC.allRows.filterMap bcOf)[1]? = some "mB" := by
  have h := C2_amended_second_row docC tblC rfl
  exact ⟨rfl, h.2.2.trans rfl, rfl, rfl⟩

theorem memberStage_ok_inv (st : MState) (doc : Doc) (st2 : MState)
    (h : memberStage st doc = Except.ok st2) :
    st2.version = st.version ∧
    st2.mapping_type_requested = st.mapping_type_requested ∧
    st2.mapping_class_name = st.mapping_class_name ∧
    st2.obfuscated_class_name = st.obfuscated_class_name ∧
    st2.detected_selectors = st.detected_selectors := by
  simp only [memberStage] at h
  repeat' split at h
  all_goals try exact Except.noConfusion h
  all_goals injection h with h'
  all_goals subst h'
  all_goals simp

/-- Counterexample to claim C9 as stated: selector state persists on the
engine instance across fetches.  After a successful Searge fetch of `docA`,
the recorded secondary slot `B` survives the detection pass of `docB` (whose
own secondary marker is `D`, as a fresh engine detects), and the reused
engine's second fetch fails where a fresh engine's fetch of the same
document succeeds. -/
theorem C9_counterexample :
    fetch (initState "1.16" MappingsType.SEARGE) docA = Except.ok (stA, resA) ∧
    stA.detected_selectors.searge_class_marker = some "B" ∧
    (detect_selectors docB stA.detected_selectors).searge_class_marker = some "B" ∧
    (detect_selectors docB initial_selectors).searge_class_marker = some "D" ∧
    fetch stA docB = Except.error FetchErr.mappingNameNotFound ∧
    fetch (initState "1.16" MappingsType.SEARGE) docB = Except.ok (stB, stB.getResult) := by
  exact ⟨rfl, rfl, rfl, rfl, rfl, rfl⟩

/-- Claim C9 as amended: detection state is stored on the instance and
persists across fetches; in particular a Searge secondary slot recorded by an
earlier fetch is never re-recorded by a later detection pass.  Within a
single fetch, detection runs exactly once: the selector state a successful
fetch leaves behind is precisely the result of the one detection pass run on
that fetch's document. -/
theorem C9_amended_state_persistence :
    (∀ (doc : Doc) (sel : Selectors) (m : String),
      sel.searge_class_marker = some m →
      (detect_selectors doc sel).searge_class_marker = some m) ∧
    (∀ (st : MState) (doc : Doc) (st1 : MState) (r1 : MappingResult),
      fetch st doc = Except.ok (st1, r1) →
      st1.detected_selectors = detect_selectors doc st.detected_selectors) := by
  constructor
  · intro doc sel m hm
    cases hfind : doc.tables.find? Table.isDefCandidate with
    | none => simpa [detect_selectors, hfind] using hm
    | some t =>
      simp only [detect_selectors, hfind]
      obtain ⟨-, -, -, -, -, hs, -⟩ := detectMemberTable_markers doc (detectPass t sel)
      have hb := (detect_fold_bc t.allRows sel found0).2.1
      rw [hs, detectPass, hb, hm]
      simp
  · intro st doc st1 r1 h
    cases hc : classStage st doc with
    | error e =>
      simp only [fetch, hc] at h
      exact Except.noConfusion h
    | ok sA =>
      cases hm2 : memberStage sA doc with
      | error e =>
        simp only [fetch, hc, hm2] at h
        exact Except.noConfusion h
      | ok sB =>
        simp only [fetch, hc, hm2] at h
        injection h with h'
        have hst : sB = st1 := congrArg Prod.fst h'
        subst hst
        obtain ⟨-, -, -, -, hsel2⟩ := memberStage_ok_inv sA doc sB hm2
        obtain ⟨-, -, -, -, hsel1, -, -⟩ := classStage_ok_inv st doc sA hc
        rw [hsel2, hsel1]

/-- Witness for the amended C9 at the concrete two-fetch scenario. -/
theorem C9_amended_state_persistence_witness :
    (detect_selectors docB stA.detected_selectors).searge_class_marker = some "B" ∧
    stA.detected_selectors =
      detect_selectors docA (initState "1.16" MappingsType.SEARGE).detected_selectors := by
  exact ⟨C9_amended_state_persistence.1 docB stA.detected_selectors "B" rfl,
    C9_amended_state_persistence.2 (initState "1.16" MappingsType.SEARGE) docA stA resA rfl⟩

theorem selectorsExt (a b : Selectors)
    (h1 : a.mojang_marker = b.mojang_marker) (h2 : a.yarn_marker = b.yarn_marker)
    (h3 : a.intermediary_marker = b.intermediary_marker)
    (h4 : a.searge_map_marker = b.searge_map_marker)
    (h5 : a.obfuscated_class_marker = b.obfuscated_class_marker)
    (h6 : a.searge_class_marker = b.searge_class_marker)
    (h7 : a.field_method_table_class = b.field_method_table_class) : a = b := by
  cases a
  cases b
  simp_all

theorem headOr_idem (a : Option String) (l : List String) :
    headOr (headOr a l) l = headOr a l := by
  cases l <;> simp [headOr]

theorem detectPass_fm (t : Table) (sel : Selectors) :
    (detectPass t sel).field_method_table_class = sel.field_method_table_class := by
  rw [detectPass]
  exact detect_fold_fm t.allRows (sel, found0)

theorem detect_idem (doc : Doc) (sel : Selectors) :
    detect_selectors doc (detect_selectors doc sel) = detect_selectors doc sel := by
  cases hfind : doc.tables.find? Table.isDefCandidate with
  | none => simp [detect_selectors, hfind]
  | some t =>
    simp only [detect_selectors, hfind]
    obtain ⟨d1m, d1y, d1i, d1map, d1o, d1s, d1f⟩ :=
      detectMemberTable_markers doc (detectPass t sel)
    obtain ⟨d2m, d2y, d2i, d2map, d2o, d2s, d2f⟩ :=
      detectMemberTable_markers doc
        (detectPass t (detectMemberTable doc (detectPass t sel)))
    obtain ⟨p1o, p1y, p1i, p1m, p1s, p1map⟩ := detectPass_char t sel
    obtain ⟨p2o, p2y, p2i, p2m, p2s, p2map⟩ :=
      detectPass_char t (detectMemberTable doc (detectPass t sel))
    apply selectorsExt
    · rw [d2m, p2m, d1m, p1m, headOr_idem]
    · rw [d2y, p2y, d1y, p1y, headOr_idem]
    · rw [d2i, p2i, d1i, p1i, headOr_idem]
    · rw [d2map, p2map, d1s, d1map, p1s, p1map]
      cases hx : sel.searge_class_marker <;>
        cases hl : (t.allRows.filterMap bcOf)[1]? <;> simp [hx, hl]
    · rw [d2o, p2o, d1o, p1o, headOr_idem]
    · rw [d2s, p2s, d1s, p1s]
      cases hx : sel.searge_class_marker <;>
        cases hl : (t.allRows.filterMap bcOf)[1]? <;> simp [hx, hl]
    · rw [d2f, detectPass_fm, d1f]
      cases hf : fmFound doc <;> simp

theorem keysOf_nil : keysOf [] = [] := rfl

theorem keysOf_cons (p : String × String) (d : Dict) : keysOf (p :: d) = p.1 :: keysOf d := rfl

theorem keysOf_dictInsert (d : Dict) (k v : String) :
    keysOf (dictInsert d k v) = if k ∈ keysOf d then keysOf d else keysOf d ++ [k] := by
  induction d with
  | nil => simp [dictInsert, keysOf]
  | cons p rest ih =>
    by_cases hp : p.1 = k
    · simp [dictInsert, keysOf_cons, hp]
    · have hp' : ¬ k = p.1 := fun h => hp h.symm
      have hg : (p.1 == k) = false := by simp [hp]
      by_cases hm : k ∈ keysOf rest
      · simp [dictInsert, keysOf_cons, hg, hp', hm, ih]
      · simp [dictInsert, keysOf_cons, hg, hp', hm, ih]

theorem lookupD_dictInsert (d : Dict) (k v k' : String) :
    lookupD (dictInsert d k v) k' = if k' = k then some v else lookupD d k' := by
  induction d with
  | nil =>
    by_cases h : k' = k
    · subst h
      simp [dictInsert, lookupD]
    · have h' : ¬ k = k' := fun hh => h hh.symm
      simp [dictInsert, lookupD, h, h']
  | cons p rest ih =>
    by_cases hp : p.1 = k
    · by_cases h : k' = k
      · subst h
        simp [dictInsert, lookupD, hp]
      · have h' : ¬ k = k' := fun hh => h hh.symm
        have hp' : ¬ p.1 = k' := by rw [hp]; exact h'
        simp [dictInsert, lookupD, hp, h, h', hp']
    · have hg : (p.1 == k) = false := by simp [hp]
      by_cases hpk : p.1 = k'
      · have h : ¬ k' = k := fun hh => hp (hpk.trans hh)
        simp [dictInsert, lookupD, hg, hpk, h]
      · simp [dictInsert, lookupD, hg, hpk, ih]

theorem nodup_keys_dictInsert (d : Dict) (k v : String) (h : (keysOf d).Nodup) :
    (keysOf (dictInsert d k v)).Nodup := by
  rw [keysOf_dictInsert]
  by_cases hm : k ∈ keysOf d
  · simpa [hm] using h
  · rw [if_neg hm, List.nodup_append]
    refine ⟨h, List.nodup_singleton k, ?_⟩
    intro a ha hb
    rw [List.mem_singleton] at hb
    subst hb
    exact hm ha

theorem lookupD_eq_none (d : Dict) (k : String) (h : k ∉ keysOf d) : lookupD d k = none := by
  induction d with
  | nil => rfl
  | cons p rest ih =>
    rw [keysOf_cons, List.mem_cons, not_or] at h
    have hp : ¬ p.1 = k := fun hh => h.1 hh.symm
    simpa [lookupD, hp] using ih h.2

theorem dict_extL (d1 : Dict) : ∀ (d2 : Dict), (keysOf d1).Nodup →
    keysOf d1 = keysOf d2 → (∀ k, lookupD d1 k = lookupD d2 k) → d1 = d2 := by
  induction d1 with
  | nil =>
    intro d2 hnd hk hl
    cases d2 with
    | nil => rfl
    | cons q t2 => simp [keysOf] at hk
  | cons p t1 ih =>
    intro d2 hnd hk hl
    cases d2 with
    | nil => simp [keysOf] at hk
    | cons q t2 =>
      rw [keysOf_cons, keysOf_cons] at hk
      injection hk with hk1 hk2
      have hndc := List.nodup_cons.mp (show (p.1 :: keysOf t1).Nodup from hnd)
      have hv : p.2 = q.2 := by
        have h1 := hl p.1
        simp only [lookupD, if_pos rfl] at h1
        rw [if_pos hk1.symm] at h1
        injection h1
      have htl : ∀ k, lookupD t1 k = lookupD t2 k := by
        intro k
        by_cases hkp : k = p.1
        · subst hkp
          rw [lookupD_eq_none t1 p.1 hndc.1, lookupD_eq_none t2 p.1 (hk2 ▸ hndc.1)]
        · have hq : ¬ q.1 = k := by
            rw [← hk1]
            exact fun hh => hkp hh.symm
          have hp' : ¬ p.1 = k := fun hh => hkp hh.symm
          have h1 := hl k
          simpa [lookupD, hp', hq] using h1
      have hpq : p = q := Prod.ext_iff.mpr ⟨hk1, hv⟩
      rw [hpq, ih t2 hndc.2 hk2 htl]

theorem applyD_cons (d : Dict) (p : String × String) (s : List (String × String)) :
    applyD d (p :: s) = applyD (dictInsert d p.1 p.2) s := rfl

theorem lookupD_applyD (s : List (String × String)) (d : Dict) (k : String) :
    lookupD (applyD d s) k =
      (match assocLast s k with
       | some v => some v
       | none => lookupD d k) := by
  induction s generalizing d with
  | nil => simp [applyD, assocLast]
  | cons p srest ih =>
    rw [applyD_cons, ih]
    simp only [assocLast]
    cases ha : assocLast srest k with
    | some v => simp
    | none =>
      rw [lookupD_dictInsert]
      by_cases h : k = p.1
      · have h' : (p.1 == k) = true := by simp [h]
        simp [h, h']
      · have h' : (p.1 == k) = false := by
          simp only [beq_eq_false_iff_ne, ne_eq]
          exact fun hh => h hh.symm
        simp [h, h']

theorem mem_keys_dictInsert_left (d : Dict) (k v a : String) (h : a ∈ keysOf d) :
    a ∈ keysOf (dictInsert d k v) := by
  rw [keysOf_dictInsert]
  split
  · exact h
  · exact List.mem_append_left _ h

theorem self_mem_keys_dictInsert (d : Dict) (k v : String) :
    k ∈ keysOf (dictInsert d k v) := by
  rw [keysOf_dictInsert]
  split
  · assumption
  · simp

theorem mem_keys_applyD_left (s : List (String × String)) (d : Dict) (a : String)
    (h : a ∈ keysOf d) : a ∈ keysOf (applyD d s) := by
  induction s generalizing d with
  | nil => exact h
  | cons p srest ih =>
    rw [applyD_cons]
    exact ih _ (mem_keys_dictInsert_left _ _ _ _ h)

theorem mem_keys_applyD_entries (s : List (String × String)) (p : String × String)
    (hp : p ∈ s) : ∀ d : Dict, p.1 ∈ keysOf (applyD d s) := by
  induction s with
  | nil => cases hp
  | cons q srest ih =>
    intro d
    rw [applyD_cons]
    rcases List.mem_cons.mp hp with heq | hmem
    · subst heq
      exact mem_keys_applyD_left _ _ _ (self_mem_keys_dictInsert d p.1 p.2)
    · exact ih hmem _

theorem keys_applyD_eq (s : List (String × String)) : ∀ d : Dict,
    (∀ p ∈ s, p.1 ∈ keysOf d) → keysOf (applyD d s) = keysOf d := by
  induction s with
  | nil => intro d h; rfl
  | cons p srest ih =>
    intro d h
    have hk : keysOf (dictInsert d p.1 p.2) = keysOf d := by
      rw [keysOf_dictInsert, if_pos (h p (List.mem_cons_self _ _))]
    have hsub : ∀ q ∈ srest, q.1 ∈ keysOf (dictInsert d p.1 p.2) := by
      intro q hq
      rw [hk]
      exact h q (List.mem_cons_of_mem _ hq)
    rw [applyD_cons, ih _ hsub, hk]

theorem nodup_keys_applyD (s : List (String × String)) : ∀ d : Dict,
    (keysOf d).Nodup → (keysOf (applyD d s)).Nodup := by
  induction s with
  | nil => intro d h; exact h
  | cons p srest ih =>
    intro d h
    rw [applyD_cons]
    exact ih _ (nodup_keys_dictInsert _ _ _ h)

theorem applyD_idem (s : List (String × String)) (d : Dict)
    (hnd : (keysOf d).Nodup) : applyD (applyD d s) s = applyD d s := by
  have hnd1 : (keysOf (applyD d s)).Nodup := nodup_keys_applyD s d hnd
  apply dict_extL _ _ (nodup_keys_applyD s (applyD d s) hnd1)
  · exact keys_applyD_eq s (applyD d s) (fun p hp => mem_keys_applyD_entries s p hp _)
  · intro k
    rw [lookupD_applyD, lookupD_applyD]
    cases ha : assocLast s k <;> simp [ha]

theorem fold_memberRowStep (mt : MappingsType) (rm om : String) (rows : List Row) :
    ∀ d : Dict, rows.foldl (memberRowStep mt rm om) d =
      applyD d (rows.filterMap (rowEntry mt rm om)) := by
  induction rows with
  | nil => intro d; rfl
  | cons r rows ih =>
    intro d
    rw [List.foldl_cons]
    simp only [List.filterMap_cons]
    cases he : rowEntry mt rm om r with
    | none =>
      simp only [memberRowStep, he]
      exact ih d
    | some kv =>
      obtain ⟨k0, v0⟩ := kv
      simp only [memberRowStep, he]
      rw [applyD_cons]
      exact ih _

theorem process_member_table_eq (sel : Selectors) (mt : MappingsType) (t : Table) (d : Dict) :
    process_member_table sel mt t d =
      (if truthyOpt sel.obfuscated_class_marker = false then d
       else if truthyOpt (if mt = MappingsType.SEARGE then
             (if truthyOpt sel.searge_class_marker then sel.searge_class_marker
              else sel.obfuscated_class_marker)
           else markerFor sel mt) = false then d
       else applyD d (t.rows.filterMap (rowEntry mt
         ((if mt = MappingsType.SEARGE then
             (if truthyOpt sel.searge_class_marker then sel.searge_class_marker
              else sel.obfuscated_class_marker)
           else markerFor sel mt).getD "")
         (sel.obfuscated_class_marker.getD "")))) := by
  simp only [process_member_table]
  cases h1 : truthyOpt sel.obfuscated_class_marker <;>
    cases h2 : truthyOpt (if mt = MappingsType.SEARGE then
        (if truthyOpt sel.searge_class_marker then sel.searge_class_marker
         else sel.obfuscated_class_marker)
      else markerFor sel mt) <;>
    simp [h1, h2, fold_memberRowStep]

theorem process_member_idem (sel : Selectors) (mt : MappingsType) (t : Table) (d : Dict)
    (hnd : (keysOf d).Nodup) :
    process_member_table sel mt t (process_member_table sel mt t d) =
      process_member_table sel mt t d := by
  simp only [process_member_table_eq]
  cases h1 : truthyOpt sel.obfuscated_class_marker <;>
    cases h2 : truthyOpt (if mt = MappingsType.SEARGE then
        (if truthyOpt sel.searge_class_marker then sel.searge_class_marker
         else sel.obfuscated_class_marker)
      else markerFor sel mt) <;>
    simp [h1, h2]
  exact applyD_idem _ _ hnd

theorem fieldDictFor_idem (doc : Doc) (toks : List String) (sel : Selectors)
    (mt : MappingsType) (d : Dict) (hnd : (keysOf d).Nodup) :
    fieldDictFor doc toks sel mt (fieldDictFor doc toks sel mt d) =
      fieldDictFor doc toks sel mt d := by
  cases hfs : doc.fsTables with
  | none => simp [fieldDictFor, hfs]
  | some fts =>
    cases hfind : fts.find? (fun tb => tokenMatch toks tb.cls) with
    | none => simp [fieldDictFor, hfs, hfind]
    | some ft =>
      simp only [fieldDictFor, hfs, hfind]
      exact process_member_idem sel mt ft d hnd

theorem methodDictFor_idem (doc : Doc) (toks : List String) (sel : Selectors)
    (mt : MappingsType) (d : Dict) (hnd : (keysOf d).Nodup) :
    methodDictFor doc toks sel mt (methodDictFor doc toks sel mt d) =
      methodDictFor doc toks sel mt d := by
  cases hms : doc.msTables with
  | none => simp [methodDictFor, hms]
  | some mts =>
    cases hfind : mts.find? (fun tb => tokenMatch toks tb.cls) with
    | none => simp [methodDictFor, hms, hfind]
    | some mtab =>
      simp only [methodDictFor, hms, hfind]
      exact process_member_idem sel mt mtab d hnd

theorem memberStage_replay (st : MState) (doc : Doc) (st2 : MState)
    (hf : (keysOf st.field_mappings).Nodup) (hm : (keysOf st.method_mappings).Nodup)
    (h : memberStage st doc = Except.ok st2) :
    memberStage st2 doc = Except.ok st2 := by
  cases hfm : st.detected_selectors.field_method_table_class with
  | none =>
    simp only [memberStage, hfm] at h
    injection h with h'
    subst h'
    simp [memberStage, hfm]
  | some fm =>
    simp only [memberStage, hfm] at h
    by_cases he : (fm == "") = true
    · rw [if_pos he] at h
      injection h with h'
      subst h'
      simp [memberStage, hfm, he]
    · rw [if_neg he] at h
      by_cases ht : (pyWsSplit fm).isEmpty = true
      · rw [if_pos ht] at h
        by_cases hfs : doc.fsTables.isSome = true
        · rw [if_pos hfs] at h
          exact Except.noConfusion h
        · rw [if_neg hfs] at h
          by_cases hms : doc.msTables.isSome = true
          · rw [if_pos hms] at h
            exact Except.noConfusion h
          · rw [if_neg hms] at h
            injection h with h'
            subst h'
            simp [memberStage, hfm, he, ht, hfs, hms]
      · rw [if_neg ht] at h
        injection h with h'
        subst h'
        simp [memberStage, hfm, he, ht,
          fieldDictFor_idem doc (pyWsSplit fm) st.detected_selectors
            st.mapping_type_requested st.field_mappings hf,
          methodDictFor_idem doc (pyWsSplit fm) st.detected_selectors
            st.mapping_type_requested st.method_mappings hm]

theorem mstateExt (a b : MState)
    (h1 : a.version = b.version)
    (h2 : a.mapping_type_requested = b.mapping_type_requested)
    (h3 : a.field_mappings = b.field_mappings)
    (h4 : a.method_mappings = b.method_mappings)
    (h5 : a.mapping_class_name = b.mapping_class_name)
    (h6 : a.obfuscated_class_name = b.obfuscated_class_name)
    (h7 : a.detected_selectors = b.detected_selectors) : a = b := by
  cases a
  cases b
  simp_all

theorem ite_not_true {α : Sort _} {c : Bool} (a b : α) (h : c = true) :
    (if (!c) = true then a else b) = b := by
  rw [h]
  exact if_neg (by simp)

theorem classStage_replay (st : MState) (doc : Doc) (stc st' : MState)
    (h : classStage st doc = Except.ok stc)
    (hsel : st'.detected_selectors = detect_selectors doc st.detected_selectors)
    (hmt : st'.mapping_type_requested = st.mapping_type_requested)
    (hcn : st'.mapping_class_name = stc.mapping_class_name)
    (hon : st'.obfuscated_class_name = stc.obfuscated_class_name) :
    classStage st' doc = Except.ok st' := by
  have hsel' : detect_selectors doc st'.detected_selectors =
      detect_selectors doc st.detected_selectors := by
    rw [hsel, detect_idem]
  simp only [classStage] at h
  repeat' split at h
  all_goals try exact Except.noConfusion h
  rename_i hA hB xT tbl heq1 xO otxt heq2 xM mtxt heq3
  have hobf : truthyOpt (detect_selectors doc st.detected_selectors).obfuscated_class_marker
      = true := by
    revert hA
    cases truthyOpt (detect_selectors doc st.detected_selectors).obfuscated_class_marker <;> simp
  have hrm : truthyOpt (resolveClassMarker (detect_selectors doc st.detected_selectors)
      st.mapping_type_requested) = true := by
    revert hB
    cases truthyOpt (resolveClassMarker (detect_selectors doc st.detected_selectors)
      st.mapping_type_requested) <;> simp
  injection h with h'
  have hcc : stc.mapping_class_name = some (pyStrip mtxt) := by rw [← h']
  have hoo : stc.obfuscated_class_name = some (pyStrip otxt) := by rw [← h']
  simp only [classStage, hsel', hmt]
  rw [ite_not_true _ _ hobf, ite_not_true _ _ hrm]
  simp only [heq1]
  simp only [heq2]
  simp only [heq3]
  refine congrArg Except.ok (mstateExt _ _ rfl hmt.symm rfl rfl ?_ ?_ ?_)
  · simp only [MState.mapping_class_name]
    rw [hcn, hcc]
  · simp only [MState.obfuscated_class_name]
    rw [hon, hoo]
  · simp only [MState.detected_selectors]
    rw [hsel]

/-- Claim C10: fetching the same unchanged document twice with the same
engine construction arguments yields bit-identical results — after a
successful fetch on a freshly constructed engine, running the same fetch
again (even on the same, now-mutated instance) returns exactly the same
state and the same `MappingResult`. -/
theorem C10_fetch_idempotent (v : String) (mt : MappingsType) (doc : Doc)
    (st1 : MState) (r1 : MappingResult)
    (h : fetch (initState v mt) doc = Except.ok (st1, r1)) :
    fetch st1 doc = Except.ok (st1, r1) := by
  cases hc : classStage (initState v mt) doc with
  | error e =>
    simp only [fetch, hc] at h
    exact Except.noConfusion h
  | ok sA =>
    cases hm2 : memberStage sA doc with
    | error e =>
      simp only [fetch, hc, hm2] at h
      exact Except.noConfusion h
    | ok sB =>
      simp only [fetch, hc, hm2] at h
      injection h with h'
      have hst : sB = st1 := congrArg Prod.fst h'
      have hr : sB.getResult = r1 := congrArg Prod.snd h'
      subst hst
      obtain ⟨hv2, hmt2, hcn2, hon2, hsel2⟩ := memberStage_ok_inv sA doc sB hm2
      obtain ⟨hv1, hmt1, hf1, hmm1, hsel1, -, -⟩ :=
        classStage_ok_inv (initState v mt) doc sA hc
      have hcs2 : classStage sB doc = Except.ok sB := by
        apply classStage_replay (initState v mt) doc sA sB hc
        · rw [hsel2, hsel1]
        · rw [hmt2, hmt1]
        · exact hcn2
        · exact hon2
      have hnf : (keysOf sA.field_mappings).Nodup := by
        rw [hf1]
        exact List.nodup_nil
      have hnm : (keysOf sA.method_mappings).Nodup := by
        rw [hmm1]
        exact List.nodup_nil
      have hms2 : memberStage sB doc = Except.ok sB := memberStage_replay sA doc sB hnf hnm hm2
      rw [← hr]
      simp [fetch, hcs2, hms2]

/-- Witness for C10: the Searge fetch of `docA` replayed on the mutated
instance returns the same state and result. -/
theorem C10_fetch_idempotent_witness :
    fetch stA docA = Except.ok (stA, resA) := by
  exact C10_fetch_idempotent "1.16" MappingsType.SEARGE docA stA resA rfl
